import Mathlib

/-!
Verification of the Wayback URL extractor (`extractor.py`) against its
natural-language specification.  The Python code is shallowly embedded:
row records from the CDX API JSON response are lists of strings, the
`collections.Counter` tables are association lists from keys to counts,
and the stateful aggregation loop becomes a left fold.
-/

namespace Wayback

/-- A row of the CDX API response: a list of string fields in the order
url, timestamp, statuscode, mimetype (possibly shorter). -/
abbrev Row := List String

/-- `item[0]` of a row (the original url).  Out-of-range reads, which would
raise in Python, are given the empty string; every theorem that depends on
the value carries the length hypothesis making the access in range. -/
def rowUrl (item : Row) : String := item.getD 0 ""

/-- `item[1]` of a row (the timestamp). -/
def rowTimestamp (item : Row) : String := item.getD 1 ""

/-- `item[2] if len(item) > 2 else 'unknown'` from `_calculate_stats`. -/
def rowStatus (item : Row) : String := item.getD 2 "unknown"

/-- `item[3] if len(item) > 3 else 'unknown'` from `_calculate_stats`. -/
def rowMime (item : Row) : String := item.getD 3 "unknown"

/-- A `collections.Counter` over string keys: an association list from keys to
counts, keyed uniquely in the order of first insertion. -/
abbrev Counter := List (String × Nat)

/-- `counter[k] += 1`: bump the count of `k`, appending a fresh entry with
count 1 when `k` is not yet present. -/
def Counter.incr : Counter → String → Counter
  | [], k => [(k, 1)]
  | (k', v) :: rest, k =>
      if k' = k then (k', v + 1) :: rest else (k', v) :: Counter.incr rest k

/-- `counter[k]` with the Counter default of 0 for missing keys. -/
def Counter.get : Counter → String → Nat
  | [], _ => 0
  | (k', v) :: rest, k => if k' = k then v else Counter.get rest k

/-- `sum(counter.values())`. -/
def Counter.total (c : Counter) : Nat := (c.map Prod.snd).sum

/-- ASCII lowercasing of one character, as `str.lower` acts on the ASCII
range (all mime strings are ASCII). -/
def lowerChar (c : Char) : Char :=
  if 'A' ≤ c ∧ c ≤ 'Z' then Char.ofNat (c.toNat + 32) else c

/-- `s.lower()`. -/
def strLower (s : String) : String := String.mk (s.data.map lowerChar)

/-- Whether `pat` is a prefix of `l` (character-wise). -/
def leadMatch : List Char → List Char → Bool
  | [], _ => true
  | _ :: _, [] => false
  | c :: cs, d :: ds => decide (c = d) && leadMatch cs ds

/-- Whether `needle` occurs as a contiguous sublist of the second argument. -/
def hasSub (needle : List Char) : List Char → Bool
  | [] => needle.isEmpty
  | d :: ds => leadMatch needle (d :: ds) || hasSub needle ds

/-- Python's `needle in hay` substring test on strings. -/
def containsSub (hay needle : String) : Bool := hasSub needle.data hay.data

/-- Python's `s.endswith(suffix)`. -/
def strEndsWith (s suffix : String) : Bool :=
  leadMatch suffix.data.reverse s.data.reverse

/-- The URL-extension fallback: the tail of `_categorize_mime` reached when
no mime keyword matched. -/
def urlExtCategory (url : String) : String :=
  if strEndsWith url ".jpg" || strEndsWith url ".jpeg" || strEndsWith url ".png"
      || strEndsWith url ".gif" || strEndsWith url ".webp" || strEndsWith url ".svg" then
    "Image"
  else if strEndsWith url ".css" then "CSS"
  else if strEndsWith url ".js" then "JavaScript"
  else if strEndsWith url ".pdf" then "PDF"
  else "Other"

/-- `WaybackExtractor._categorize_mime`: case-insensitive keyword match on the
mime type in priority order, then the URL-extension fallback, else Other. -/
def categorize_mime (mime url : String) : String :=
  if containsSub (strLower mime) "html" then "HTML"
  else if containsSub (strLower mime) "image" then "Image"
  else if containsSub (strLower mime) "css" then "CSS"
  else if containsSub (strLower mime) "javascript" || containsSub (strLower mime) "json" then
    "JavaScript"
  else if containsSub (strLower mime) "pdf" then "PDF"
  else if containsSub (strLower mime) "video" then "Video"
  else urlExtCategory url

/-- `seen_urls.add(url)`: sets are modelled as duplicate-free lists. -/
def addSeen (s : List String) (u : String) : List String :=
  if u ∈ s then s else u :: s

/-- The `self.stats` dictionary. -/
structure Stats where
  total : Nat
  unique : Nat
  by_type : Counter
  by_status : Counter
  deriving Repr, DecidableEq

/-- One iteration of the loop in `_calculate_stats`: record the url in
`seen_urls` and bump the status and file-type counters. -/
def statsStep (acc : List String × Counter × Counter) (item : Row) :
    List String × Counter × Counter :=
  (addSeen acc.1 (rowUrl item),
   Counter.incr acc.2.1 (rowStatus item),
   Counter.incr acc.2.2 (categorize_mime (rowMime item) (rowUrl item)))

/-- `WaybackExtractor._calculate_stats` on a record sequence. -/
def calculate_stats (urls : List Row) : Stats :=
  let acc := urls.foldl statsStep ([], [], [])
  { total := urls.length
    unique := acc.1.length
    by_status := acc.2.1
    by_type := acc.2.2 }

/-- The zeroed statistics installed by `__init__`. -/
def initStats : Stats := { total := 0, unique := 0, by_type := [], by_status := [] }

/-! ### The `extract` request parameters -/

/-- `WaybackExtractor.FREE_LIMIT`. -/
def FREE_LIMIT : Int := 50000

/-- The limit handling at the top of `extract`: the effective limit placed in
the request parameters, paired with whether the clamping warning is printed. -/
def effectiveLimit : Option Int → Int × Bool
  | none => (FREE_LIMIT, false)
  | some l => if l > FREE_LIMIT then (FREE_LIMIT, true) else (l, false)

/-- Python truthiness of an optional string argument (`None` and the empty
string are falsy). -/
def truthy : Option String → Bool
  | none => false
  | some s => !s.isEmpty

/-- The `filter` entry of the request parameters: the pattern filter is
assigned first and the status filter assignment then overwrites it. -/
def filterParam (filter_pattern status_codes : Option String) : Option String :=
  let p := if truthy filter_pattern
           then some ("original:.*" ++ filter_pattern.getD "")
           else none
  if truthy status_codes then some ("statuscode:" ++ status_codes.getD "") else p

/-! ### The fetch step of `extract` -/

/-- Outcome of the HTTP request in `extract`: either the parsed JSON array of
rows (header row included when present), or any `RequestException` (transport
error, timeout, or the non-2xx status raised by `raise_for_status`). -/
inductive FetchResult where
  | ok (data : List Row)
  | err
  deriving Repr, DecidableEq

/-- The extractor's mutable fields `self.urls` and `self.stats`. -/
structure ExtractorState where
  urls : List Row
  stats : Stats
  deriving Repr, DecidableEq

/-- The state installed by `__init__`. -/
def initState : ExtractorState := { urls := [], stats := initStats }

/-- The response handling of `extract`: on a parsed array with more than one
row, store `data[1:]`, compute the statistics and return True; otherwise
(header-only or empty array, or a raised request error) return False leaving
the state untouched. -/
def extractStep (st : ExtractorState) (r : FetchResult) : Bool × ExtractorState :=
  match r with
  | .err => (false, st)
  | .ok data =>
      if data.length > 1 then
        let urls := data.drop 1
        (true, { urls := urls, stats := calculate_stats urls })
      else (false, st)

/-! ### Export filenames and format dispatch -/

/-- `self.domain.replace(".", "_")` (a single-character replacement). -/
def replaceDots (s : String) : String :=
  String.mk (s.data.map fun c => if c = '.' then '_' else c)

/-- The filename `export_csv` writes to. -/
def export_csv_filename (domain : String) (filename : Option String) : String :=
  filename.getD (replaceDots domain ++ "_urls.csv")

/-- The filename `export_json` writes to. -/
def export_json_filename (domain : String) (filename : Option String) : String :=
  filename.getD (replaceDots domain ++ "_urls.json")

/-- The filename `export_txt` writes to. -/
def export_txt_filename (domain : String) (filename : Option String) : String :=
  filename.getD (replaceDots domain ++ "_urls.txt")

/-- `WaybackExtractor.export`: dispatch on the format string, returning the
filename written, or the `ValueError` message for an unknown format. -/
def exportAs (format domain : String) (filename : Option String) :
    Except String String :=
  if format = "csv" then Except.ok (export_csv_filename domain filename)
  else if format = "json" then Except.ok (export_json_filename domain filename)
  else if format = "txt" then Except.ok (export_txt_filename domain filename)
  else Except.error ("Unknown format: " ++ format)

/-- The top-level flow of `main`: the export (file write) is attempted only
when `extract` returned success; the result is the file written, if any. -/
def runOutputFile (r : FetchResult) (format domain : String)
    (filename : Option String) : Option (Except String String) :=
  if (extractStep initState r).1 then some (exportAs format domain filename)
  else none

/-! ### The percentage computation of `print_stats` -/

/-- Python division, which raises `ZeroDivisionError` (here: `none`) on a zero
denominator; exact rational arithmetic stands in for floats. -/
def pyDiv (a b : ℚ) : Option ℚ := if b = 0 then none else some (a / b)

/-- One percentage as printed by `print_stats`:
`(count / total * 100) if total > 0 else 0`. -/
def printedPercentage (count total : Nat) : Option ℚ :=
  if total > 0 then (pyDiv (count : ℚ) (total : ℚ)).map (fun q => q * 100)
  else some 0

/-! ### CSV serialization (`export_csv`, csv.writer with the default dialect)

The writer quotes a field minimally: only when it contains the delimiter,
the quote character, or a character of the line terminator; a quote is
escaped by doubling.  A row consisting of a single empty field is written
quoted so that the line is not read back as a blank line.  Rows end in
CRLF. -/

/-- Characters that force quoting under QUOTE_MINIMAL. -/
def specialChar (c : Char) : Bool := c = ',' || c = '"' || c = '\r' || c = '\n'

/-- Quote-doubling escape applied inside a quoted field. -/
def escapeChars : List Char → List Char
  | [] => []
  | c :: t => if c = '"' then '"' :: '"' :: escapeChars t else c :: escapeChars t

/-- One field as csv.writer renders it. -/
def encodeFieldChars (f : List Char) : List Char :=
  if f.any specialChar then '"' :: escapeChars f ++ ['"'] else f

/-- The fields of a row joined by the delimiter. -/
def encodeFields : List String → List Char
  | [] => []
  | [f] => encodeFieldChars f.data
  | f :: rest => encodeFieldChars f.data ++ ',' :: encodeFields rest

/-- One row as csv.writer writes it, CRLF-terminated. -/
def encodeRowChars (r : List String) : List Char :=
  if r = [""] then ['"', '"', '\r', '\n']
  else encodeFields r ++ ['\r', '\n']

/-- A sequence of rows concatenated into file content. -/
def csvLinesChars : List (List String) → List Char
  | [] => []
  | r :: rs => encodeRowChars r ++ csvLinesChars rs

/-- The file content written by `export_csv`: the header row
`url,timestamp,status_code,mime_type` followed by one row per record. -/
def export_csv_content (urls : List Row) : String :=
  String.mk (csvLinesChars (["url", "timestamp", "status_code", "mime_type"] :: urls))

/-! ### CSV parsing (csv.reader) -/

/-- Parse the remainder of a quoted field (the opening quote already
consumed): a doubled quote is a literal quote, a single quote closes the
field.  Fueled to stay structurally recursive; any fuel of at least the
input length plus one is enough. -/
def parseQuotedF : Nat → List Char → List Char × List Char
  | 0, l => ([], l)
  | _ + 1, [] => ([], [])
  | fuel + 1, c :: t =>
    if c = '"' then
      match t with
      | [] => ([], [])
      | c2 :: t2 =>
        if c2 = '"' then
          let r := parseQuotedF fuel t2
          ('"' :: r.1, r.2)
        else ([], c2 :: t2)
    else
      let r := parseQuotedF fuel t
      (c :: r.1, r.2)

/-- Parse an unquoted field: everything up to a delimiter or end of line. -/
def parseUnquoted : List Char → List Char × List Char
  | [] => ([], [])
  | c :: t =>
    if c = ',' || c = '\r' || c = '\n' then ([], c :: t)
    else
      let r := parseUnquoted t
      (c :: r.1, r.2)

/-- `parseQuotedF` with enough fuel for its input. -/
def parseQuoted (l : List Char) : List Char × List Char :=
  parseQuotedF (l.length + 1) l

/-- Parse one field, quoted or unquoted; returns the field's characters and
the unconsumed input, which starts at the delimiter or terminator. -/
def parseField (l : List Char) : List Char × List Char :=
  match l with
  | [] => ([], [])
  | c :: t => if c = '"' then parseQuoted t else parseUnquoted (c :: t)

/-- Parse one record: fields separated by commas, ended by CR, LF, CRLF or
end of input.  The fuel bounds the number of fields. -/
def parseRowF : Nat → List Char → List String × List Char
  | 0, l => ([], l)
  | fuel + 1, l =>
    let fr := parseField l
    let f := String.mk fr.1
    match fr.2 with
    | [] => ([f], [])
    | c :: t =>
      if c = ',' then
        let rr := parseRowF fuel t
        (f :: rr.1, rr.2)
      else if c = '\r' then
        match t with
        | '\n' :: t2 => ([f], t2)
        | _ => ([f], t)
      else if c = '\n' then ([f], t)
      else ([f], c :: t)

/-- Parse a whole file into records; a blank line is the empty record, as
csv.reader returns it.  The fuel bounds the number of records. -/
def parseCSVF : Nat → List Char → List (List String)
  | 0, _ => []
  | _ + 1, [] => []
  | fuel + 1, c :: t =>
    if c = '\r' then
      match t with
      | '\n' :: t2 => [] :: parseCSVF fuel t2
      | _ => [] :: parseCSVF fuel t
    else if c = '\n' then [] :: parseCSVF fuel t
    else
      let rr := parseRowF ((c :: t).length + 1) (c :: t)
      rr.1 :: parseCSVF fuel rr.2

/-- csv.reader over a whole file. -/
def parseCSV (s : String) : List (List String) :=
  parseCSVF (s.data.length + 1) s.data

/-! ### JSON and TXT serialization -/

/-- The `(url, timestamp, status, mime)` tuple of a record, with the optional
fields absent when the row is short. -/
def recordTuple (item : Row) : String × String × Option String × Option String :=
  (rowUrl item, rowTimestamp item, item.get? 2, item.get? 3)

/-- One element of the `urls` array assembled by `export_json`. -/
structure JsonUrlEntry where
  url : String
  timestamp : String
  status_code : Option String
  mime_type : Option String
  deriving Repr, DecidableEq

/-- The dictionary `export_json` builds for one record:
`status_code`/`mime_type` become null (`none`) when the row is short. -/
def jsonEntry (item : Row) : JsonUrlEntry :=
  { url := rowUrl item
    timestamp := rowTimestamp item
    status_code := item.get? 2
    mime_type := item.get? 3 }

/-- The `urls` array of the JSON document written by `export_json`. -/
def export_json_urls (urls : List Row) : List JsonUrlEntry :=
  urls.map jsonEntry

/-- Reading the tuple back from a parsed JSON entry. -/
def entryTuple (e : JsonUrlEntry) : String × String × Option String × Option String :=
  (e.url, e.timestamp, e.status_code, e.mime_type)

/-- The characters written by `export_txt`: each record's url followed by a
newline, nothing else. -/
def txtLinesChars : List Row → List Char
  | [] => []
  | item :: rest => (rowUrl item).data ++ '\n' :: txtLinesChars rest

/-- The file content written by `export_txt`. -/
def export_txt_content (urls : List Row) : String :=
  String.mk (txtLinesChars urls)

/-- Split file content into its lines (re-parsing a TXT export). -/
def splitLinesF : Nat → List Char → List String
  | 0, _ => []
  | _ + 1, [] => []
  | fuel + 1, c :: t =>
    let line := (c :: t).takeWhile (fun x => !(x = '\n'))
    let rest := (c :: t).dropWhile (fun x => !(x = '\n'))
    match rest with
    | [] => [String.mk line]
    | _ :: t2 => String.mk line :: splitLinesF fuel t2

/-- Line splitting of a whole file. -/
def splitLines (s : String) : List String :=
  splitLinesF (s.data.length + 1) s.data

example : categorize_mime "application/json" "http://x/a" = "JavaScript" := by decide
example : categorize_mime "unknown" "http://x/a.pdf" = "PDF" := by decide
example : categorize_mime "TEXT/HTML" "u" = "HTML" := by decide
example :
    calculate_stats [["a", "1", "200", "text/html"], ["a", "2", "301", "img"], ["b", "3"]] =
      { total := 3, unique := 2,
        by_type := [("HTML", 1), ("Other", 2)],
        by_status := [("200", 1), ("301", 1), ("unknown", 1)] } := by decide

example :
    parseCSV (export_csv_content [["a,b", "c\"d", "e\r\nf", ""], [], [""], ["x"]]) =
      [["url", "timestamp", "status_code", "mime_type"],
       ["a,b", "c\"d", "e\r\nf", ""], [], [""], ["x"]] := by decide

example :
    splitLines (export_txt_content [["http://a", "1"], ["http://b"]]) =
      ["http://a", "http://b"] := by decide

/-! ### Counter lemmas -/

theorem Counter.total_incr (c : Counter) (k : String) :
    (c.incr k).total = c.total + 1 := by
  induction c with
  | nil => simp [Counter.incr, Counter.total]
  | cons p rest ih =>
    obtain ⟨k', v⟩ := p
    by_cases h : k' = k
    · simp [Counter.incr, h, Counter.total]
      omega
    · simp [Counter.incr, h, Counter.total] at ih ⊢
      omega

theorem Counter.get_incr (c : Counter) (k' k : String) :
    (c.incr k').get k = c.get k + (if k' = k then 1 else 0) := by
  induction c with
  | nil => by_cases h : k' = k <;> simp [Counter.incr, Counter.get, h]
  | cons p rest ih =>
    obtain ⟨k0, v⟩ := p
    by_cases h0 : k0 = k'
    · subst h0
      by_cases h : k0 = k <;> simp [Counter.incr, Counter.get, h]
    · by_cases h : k0 = k
      · subst h
        have hk : ¬ k' = k0 := fun hc => h0 hc.symm
        simp [Counter.incr, h0, Counter.get, hk]
      · simp [Counter.incr, h0, Counter.get, h, ih]

theorem addSeen_length_le (s : List String) (u : String) :
    (addSeen s u).length ≤ s.length + 1 := by
  unfold addSeen
  split <;> simp

/-! ### Fold lemmas for `calculate_stats` -/

theorem foldl_statsStep_seen_le (urls : List Row) :
    ∀ init : List String × Counter × Counter,
      (urls.foldl statsStep init).1.length ≤ init.1.length + urls.length := by
  induction urls with
  | nil => intro init; simp
  | cons item rest ih =>
    intro init
    have h1 := ih (statsStep init item)
    have h2 := addSeen_length_le init.1 (rowUrl item)
    have hs : (statsStep init item).1 = addSeen init.1 (rowUrl item) := rfl
    rw [hs] at h1
    simp only [List.foldl_cons, List.length_cons]
    omega

theorem foldl_statsStep_status_total (urls : List Row) :
    ∀ init : List String × Counter × Counter,
      (urls.foldl statsStep init).2.1.total = init.2.1.total + urls.length := by
  induction urls with
  | nil => intro init; simp
  | cons item rest ih =>
    intro init
    have h1 := ih (statsStep init item)
    have h2 : (statsStep init item).2.1.total = init.2.1.total + 1 :=
      Counter.total_incr init.2.1 (rowStatus item)
    simp only [List.foldl_cons, List.length_cons]
    omega

theorem foldl_statsStep_type_total (urls : List Row) :
    ∀ init : List String × Counter × Counter,
      (urls.foldl statsStep init).2.2.total = init.2.2.total + urls.length := by
  induction urls with
  | nil => intro init; simp
  | cons item rest ih =>
    intro init
    have h1 := ih (statsStep init item)
    have h2 : (statsStep init item).2.2.total = init.2.2.total + 1 :=
      Counter.total_incr init.2.2 (categorize_mime (rowMime item) (rowUrl item))
    simp only [List.foldl_cons, List.length_cons]
    omega

theorem foldl_statsStep_status_get (urls : List Row) (k : String) :
    ∀ init : List String × Counter × Counter,
      ((urls.foldl statsStep init).2.1).get k
        = init.2.1.get k + urls.countP (fun i => decide (rowStatus i = k)) := by
  induction urls with
  | nil => intro init; simp
  | cons item rest ih =>
    intro init
    have h1 := ih (statsStep init item)
    have h2 : ((statsStep init item).2.1).get k
        = init.2.1.get k + (if rowStatus item = k then 1 else 0) :=
      Counter.get_incr init.2.1 (rowStatus item) k
    simp only [List.foldl_cons, List.countP_cons]
    by_cases h : rowStatus item = k <;> simp [h] at h2 ⊢ <;> omega

/-- C1: after `_calculate_stats`, `total` is the number of records, `unique`
(the number of distinct original urls) is at most `total`, and the counts in
`by_type` and in `by_status` each sum to `total`. -/
theorem calculate_stats_invariants (urls : List Row) :
    (calculate_stats urls).total = urls.length ∧
    (calculate_stats urls).unique ≤ (calculate_stats urls).total ∧
    (calculate_stats urls).by_type.total = (calculate_stats urls).total ∧
    (calculate_stats urls).by_status.total = (calculate_stats urls).total := by
  refine ⟨rfl, ?_, ?_, ?_⟩
  · have h := foldl_statsStep_seen_le urls ([], [], [])
    simpa [calculate_stats] using h
  · have h := foldl_statsStep_type_total urls ([], [], [])
    simpa [calculate_stats, Counter.total] using h
  · have h := foldl_statsStep_status_total urls ([], [], [])
    simpa [calculate_stats, Counter.total] using h

/-! ### Suffix lemmas for the URL-extension fallback -/

theorem leadMatch_iff (p : List Char) : ∀ l : List Char, leadMatch p l = true ↔ p <+: l := by
  induction p with
  | nil => intro l; simp [leadMatch]
  | cons c cs ih =>
    intro l
    cases l with
    | nil => simp [leadMatch]
    | cons d ds => simp [leadMatch, ih, List.cons_prefix_cons]

theorem strEndsWith_excl (u a b : String)
    (hab : ¬ (a.data.reverse <+: b.data.reverse ∨ b.data.reverse <+: a.data.reverse))
    (ha : strEndsWith u a = true) : strEndsWith u b = false := by
  by_contra h
  rw [Bool.not_eq_false] at h
  rw [strEndsWith, leadMatch_iff] at ha h
  exact hab (List.prefix_or_prefix_of_prefix ha h)

/-- C3: `_categorize_mime` applies its rules in priority order: a mime whose
lowercasing contains "html" is always HTML (first rule wins); mime
`application/json` yields JavaScript for every url; and a record whose mime is
the "unknown" placeholder and whose url ends in ".pdf" yields PDF. -/
theorem categorize_mime_priority :
    (∀ mime url, containsSub (strLower mime) "html" = true →
        categorize_mime mime url = "HTML") ∧
    (∀ url, categorize_mime "application/json" url = "JavaScript") ∧
    (∀ url, strEndsWith url ".pdf" = true → categorize_mime "unknown" url = "PDF") := by
  refine ⟨?_, ?_, ?_⟩
  · intro mime url h
    simp [categorize_mime, h]
  · intro url
    rfl
  · intro url h
    have h1 := strEndsWith_excl url ".pdf" ".jpg" (by decide) h
    have h2 := strEndsWith_excl url ".pdf" ".jpeg" (by decide) h
    have h3 := strEndsWith_excl url ".pdf" ".png" (by decide) h
    have h4 := strEndsWith_excl url ".pdf" ".gif" (by decide) h
    have h5 := strEndsWith_excl url ".pdf" ".webp" (by decide) h
    have h6 := strEndsWith_excl url ".pdf" ".svg" (by decide) h
    have h7 := strEndsWith_excl url ".pdf" ".css" (by decide) h
    have h8 := strEndsWith_excl url ".pdf" ".js" (by decide) h
    show urlExtCategory url = "PDF"
    simp [urlExtCategory, h1, h2, h3, h4, h5, h6, h7, h8, h]

/-- Witness for C3 at concrete inputs. -/
theorem categorize_mime_priority_witness :
    categorize_mime "text/HTML; charset=utf-8" "u" = "HTML" ∧
    categorize_mime "application/json" "u" = "JavaScript" ∧
    categorize_mime "unknown" "http://x/doc.pdf" = "PDF" :=
  ⟨categorize_mime_priority.1 "text/HTML; charset=utf-8" "u" (by decide),
   categorize_mime_priority.2.1 "u",
   categorize_mime_priority.2.2 "http://x/doc.pdf" (by decide)⟩

/-- C4: with no caller limit the effective limit is `FREE_LIMIT = 50000`; a
limit above the ceiling is clamped to it exactly (and the warning is
printed); any other limit is used unchanged (no warning). -/
theorem effectiveLimit_spec :
    (effectiveLimit none = (FREE_LIMIT, false) ∧ FREE_LIMIT = 50000) ∧
    (∀ l : Int, l > FREE_LIMIT → effectiveLimit (some l) = (FREE_LIMIT, true)) ∧
    (∀ l : Int, l ≤ FREE_LIMIT → effectiveLimit (some l) = (l, false)) := by
  refine ⟨⟨rfl, rfl⟩, ?_, ?_⟩
  · intro l h
    simp [effectiveLimit, h]
  · intro l h
    simp [effectiveLimit, not_lt.mpr h]

/-- Witness for C4 at concrete limits. -/
theorem effectiveLimit_spec_witness :
    effectiveLimit (some 60000) = (FREE_LIMIT, true) ∧
    effectiveLimit (some 10) = (10, false) :=
  ⟨effectiveLimit_spec.2.1 60000 (by decide),
   effectiveLimit_spec.2.2 10 (by decide)⟩

/-- C5: at most one filter kind is active: a (truthy) status-code filter
always yields exactly `statuscode:<codes>`, whatever the pattern argument;
otherwise a (truthy) pattern yields the regex-over-original-URL filter; with
neither, no filter parameter is set. -/
theorem filterParam_spec (fp sc : Option String) :
    (truthy sc = true → filterParam fp sc = some ("statuscode:" ++ sc.getD "")) ∧
    (truthy sc = false → truthy fp = true →
        filterParam fp sc = some ("original:.*" ++ fp.getD "")) ∧
    (truthy sc = false → truthy fp = false → filterParam fp sc = none) := by
  refine ⟨?_, ?_, ?_⟩
  · intro h
    simp [filterParam, h]
  · intro h hf
    simp [filterParam, h, hf]
  · intro h hf
    simp [filterParam, h, hf]

/-- Witness for C5: both filters given (status wins), pattern only, neither. -/
theorem filterParam_spec_witness :
    filterParam (some "login") (some "200,301") = some "statuscode:200,301" ∧
    filterParam (some "login") none = some "original:.*login" ∧
    filterParam none none = none :=
  ⟨(filterParam_spec (some "login") (some "200,301")).1 (by decide),
   (filterParam_spec (some "login") none).2.1 (by decide) (by decide),
   (filterParam_spec none none).2.2 (by decide) (by decide)⟩

/-- C6: on a failed request or on a parsed response with at most one row
(no data rows after the header), `extract` returns False, the record list and
statistics keep their initial empty state, and the top-level flow writes no
output file. -/
theorem extract_failure_state (r : FetchResult)
    (h : r = FetchResult.err ∨ ∃ data, r = FetchResult.ok data ∧ data.length ≤ 1) :
    extractStep initState r = (false, initState) ∧
    (∀ format domain filename, runOutputFile r format domain filename = none) := by
  have hstep : extractStep initState r = (false, initState) := by
    rcases h with h | ⟨data, rfl, hlen⟩
    · subst h; rfl
    · have hgt : ¬ data.length > 1 := by omega
      simp [extractStep, hgt]
  refine ⟨hstep, ?_⟩
  intro format domain filename
  simp [runOutputFile, hstep]

/-- Witness for C6: a header-only response and a transport error. -/
theorem extract_failure_state_witness :
    extractStep initState (FetchResult.ok [["original", "timestamp", "statuscode", "mimetype"]])
      = (false, initState) ∧
    runOutputFile FetchResult.err "csv" "example.com" none = none :=
  ⟨(extract_failure_state (FetchResult.ok [["original", "timestamp", "statuscode", "mimetype"]])
      (Or.inr ⟨_, rfl, by decide⟩)).1,
   (extract_failure_state FetchResult.err (Or.inl rfl)).2 "csv" "example.com" none⟩

/-- C7: `export` fails with the ValueError exactly when the format is none of
csv, json, txt; for each of those three it returns the filename written by the
corresponding export function. -/
theorem exportAs_spec (format domain : String) (filename : Option String) :
    ((∃ e, exportAs format domain filename = Except.error e) ↔
        ¬ (format = "csv" ∨ format = "json" ∨ format = "txt")) ∧
    (format = "csv" →
        exportAs format domain filename = Except.ok (export_csv_filename domain filename)) ∧
    (format = "json" →
        exportAs format domain filename = Except.ok (export_json_filename domain filename)) ∧
    (format = "txt" →
        exportAs format domain filename = Except.ok (export_txt_filename domain filename)) := by
  by_cases h1 : format = "csv"
  · simp [exportAs, h1]
  · by_cases h2 : format = "json"
    · simp [exportAs, h1, h2]
    · by_cases h3 : format = "txt"
      · simp [exportAs, h1, h2, h3]
      · simp [exportAs, h1, h2, h3]

/-- Witness for C7: the good formats return filenames, a bad one errors. -/
theorem exportAs_spec_witness :
    exportAs "csv" "example.com" none = Except.ok (export_csv_filename "example.com" none) ∧
    (∃ e, exportAs "xml" "example.com" none = Except.error e) :=
  ⟨(exportAs_spec "csv" "example.com" none).2.1 rfl,
   ((exportAs_spec "xml" "example.com" none).1).mpr (by decide)⟩

/-- C8: the printed percentage never divides by zero: it is always defined,
equals 0 when `total = 0`, and equals `count / total * 100` when `total > 0`. -/
theorem printedPercentage_spec (count total : Nat) :
    (printedPercentage count total).isSome = true ∧
    (total = 0 → printedPercentage count total = some 0) ∧
    (0 < total →
        printedPercentage count total = some ((count : ℚ) / (total : ℚ) * 100)) := by
  by_cases h : total = 0
  · subst h
    simp [printedPercentage]
  · have hpos : 0 < total := Nat.pos_of_ne_zero h
    have hq : (total : ℚ) ≠ 0 := by
      exact_mod_cast h
    simp [printedPercentage, hpos, pyDiv, hq, h]

/-- Witness for C8 at `total = 0` and at a positive total. -/
theorem printedPercentage_spec_witness :
    printedPercentage 7 0 = some 0 ∧
    printedPercentage 1 4 = some ((1 : ℚ) / (4 : ℚ) * 100) :=
  ⟨(printedPercentage_spec 7 0).2.1 rfl,
   (printedPercentage_spec 1 4).2.2 (by decide)⟩

/-- C9: with no filename supplied, each export derives
`<domain with dots replaced by underscores>_urls.<ext>`; in particular
`example.com` with format json yields `example_com_urls.json`. -/
theorem default_filename_spec :
    (∀ domain, export_csv_filename domain none = replaceDots domain ++ "_urls.csv") ∧
    (∀ domain, export_json_filename domain none = replaceDots domain ++ "_urls.json") ∧
    (∀ domain, export_txt_filename domain none = replaceDots domain ++ "_urls.txt") ∧
    export_json_filename "example.com" none = "example_com_urls.json" := by
  refine ⟨fun d => rfl, fun d => rfl, fun d => rfl, ?_⟩
  decide

/-! ### CSV round-trip lemmas -/

theorem strMk_data (s : String) : String.mk s.data = s := rfl

theorem escapeChars_no_quote (f : List Char) (h : ∀ c ∈ f, ¬ c = '"') :
    escapeChars f = f := by
  induction f with
  | nil => rfl
  | cons c cs ih =>
    have hc := h c (by simp)
    have ihr := ih fun x hx => h x (by simp [hx])
    simp [escapeChars, hc, ihr]

theorem escapeChars_length_le (f : List Char) :
    (escapeChars f).length ≤ (encodeFieldChars f).length := by
  by_cases h : f.any specialChar
  · simp [encodeFieldChars, h]
    omega
  · have hnq : ∀ c ∈ f, ¬ c = '"' := by
      intro c hc hq
      refine h ?_
      refine List.any_eq_true.mpr ⟨c, hc, ?_⟩
      simp [specialChar, hq]
    simp [encodeFieldChars, h, escapeChars_no_quote f hnq]

theorem escapeChars_cons (c : Char) (t : List Char) :
    escapeChars (c :: t)
      = if c = '"' then '"' :: '"' :: escapeChars t else c :: escapeChars t := rfl

theorem parseQuotedF_encode (f : List Char) :
    ∀ (fuel : Nat) (rest : List Char),
      (rest = [] ∨ ∃ c t, rest = c :: t ∧ c ≠ '"') →
      (escapeChars f).length + 1 ≤ fuel →
      parseQuotedF fuel (escapeChars f ++ '"' :: rest) = (f, rest) := by
  induction f with
  | nil =>
    intro fuel rest hrest hfuel
    obtain ⟨k, rfl⟩ : ∃ k, fuel = k + 1 := ⟨fuel - 1, by omega⟩
    rcases hrest with rfl | ⟨c, t, rfl, hc⟩
    · simp [escapeChars, parseQuotedF]
    · simp [escapeChars, parseQuotedF, hc]
  | cons c cs ih =>
    intro fuel rest hrest hfuel
    by_cases hc : c = '"'
    · subst hc
      rw [escapeChars_cons, if_pos rfl] at hfuel ⊢
      simp only [List.length_cons] at hfuel
      obtain ⟨k, rfl⟩ : ∃ k, fuel = k + 1 := ⟨fuel - 1, by omega⟩
      have ihr := ih k rest hrest (by omega)
      simp [parseQuotedF, ihr]
    · rw [escapeChars_cons, if_neg hc] at hfuel ⊢
      simp only [List.length_cons] at hfuel
      obtain ⟨k, rfl⟩ : ∃ k, fuel = k + 1 := ⟨fuel - 1, by omega⟩
      have ihr := ih k rest hrest (by omega)
      simp [parseQuotedF, hc, ihr]

theorem parseUnquoted_append (f : List Char) :
    ∀ rest : List Char,
      (∀ c ∈ f, (c = ',' || c = '\r' || c = '\n') = false) →
      (rest = [] ∨ ∃ c t, rest = c :: t ∧ (c = ',' || c = '\r' || c = '\n') = true) →
      parseUnquoted (f ++ rest) = (f, rest) := by
  induction f with
  | nil =>
    intro rest _ hrest
    rcases hrest with rfl | ⟨c, t, rfl, hc⟩
    · simp [parseUnquoted]
    · simp [parseUnquoted, hc]
  | cons c cs ih =>
    intro rest hf hrest
    have hc := hf c (by simp)
    have ihr := ih rest (fun x hx => hf x (by simp [hx])) hrest
    simp [parseUnquoted, hc, ihr]

theorem parseQuoted_encode (f : List Char) (rest : List Char)
    (hrest : rest = [] ∨ ∃ c t, rest = c :: t ∧ c ≠ '"') :
    parseQuoted (escapeChars f ++ '"' :: rest) = (f, rest) := by
  refine parseQuotedF_encode f _ rest hrest ?_
  simp [List.length_append]

theorem parseField_encode (f : String) (rest : List Char)
    (hrest : rest = [] ∨ ∃ c t, rest = c :: t ∧ (c = ',' || c = '\r' || c = '\n') = true) :
    parseField (encodeFieldChars f.data ++ rest) = (f.data, rest) := by
  by_cases hq : f.data.any specialChar
  · have hrest' : rest = [] ∨ ∃ c t, rest = c :: t ∧ c ≠ '"' := by
      rcases hrest with rfl | ⟨c, t, rfl, hc⟩
      · exact Or.inl rfl
      · refine Or.inr ⟨c, t, rfl, fun hcq => ?_⟩
        subst hcq
        simp at hc
    have h0 := parseQuoted_encode f.data rest hrest'
    simp [encodeFieldChars, hq, parseField, h0]
  · have hstop : ∀ c ∈ f.data, (c = ',' || c = '\r' || c = '\n') = false := by
      intro c hc
      by_contra hs
      rw [Bool.not_eq_false] at hs
      refine hq (List.any_eq_true.mpr ⟨c, hc, ?_⟩)
      simp only [specialChar, Bool.or_eq_true, decide_eq_true_eq]
      simp only [Bool.or_eq_true, decide_eq_true_eq] at hs
      tauto
    have hnqt : ∀ c ∈ f.data, ¬ c = '"' := by
      intro c hc hq2
      subst hq2
      exact hq (List.any_eq_true.mpr ⟨'"', hc, by simp [specialChar]⟩)
    simp only [encodeFieldChars, hq, if_false, Bool.false_eq_true]
    cases hd : f.data with
    | nil =>
      rcases hrest with rfl | ⟨c, t, rfl, hc⟩
      · simp [parseField]
      · have hcq : ¬ c = '"' := by
          intro h
          subst h
          simp at hc
        simp [parseField, hcq, parseUnquoted, hc]
    | cons d ds =>
      have hdq : ¬ d = '"' := hnqt d (by simp [hd])
      have h1 := parseUnquoted_append (d :: ds) rest (by rw [← hd]; exact hstop) hrest
      rw [List.cons_append] at h1
      simp [parseField, hdq, h1]

theorem parseRowF_encode (r : List String) :
    ∀ (fuel : Nat) (rest : List Char),
      r ≠ [] → r.length ≤ fuel →
      parseRowF fuel (encodeFields r ++ '\r' :: '\n' :: rest) = (r, rest) := by
  induction r with
  | nil => intro fuel rest h _; exact absurd rfl h
  | cons f r' ih =>
    intro fuel rest _ hfuel
    obtain ⟨k, rfl⟩ : ∃ k, fuel = k + 1 :=
      ⟨fuel - 1, by simp only [List.length_cons] at hfuel; omega⟩
    cases r' with
    | nil =>
      have hfield := parseField_encode f ('\r' :: '\n' :: rest)
        (Or.inr ⟨'\r', '\n' :: rest, rfl, by decide⟩)
      simp only [encodeFields]
      simp only [parseRowF, hfield]
      simp [strMk_data]
    | cons g r'' =>
      have hassoc : encodeFields (f :: g :: r'') ++ '\r' :: '\n' :: rest
          = encodeFieldChars f.data ++ ',' :: (encodeFields (g :: r'') ++ '\r' :: '\n' :: rest) := by
        simp [encodeFields]
      have hfield := parseField_encode f
        (',' :: (encodeFields (g :: r'') ++ '\r' :: '\n' :: rest))
        (Or.inr ⟨',', _, rfl, by decide⟩)
      have ihr := ih k rest (by simp) (by simp only [List.length_cons] at hfuel ⊢; omega)
      rw [hassoc]
      simp only [parseRowF, hfield]
      simp [ihr, strMk_data]

theorem parseRowF_quotes (fuel : Nat) (rest : List Char) :
    parseRowF (fuel + 1) ('"' :: '"' :: '\r' :: '\n' :: rest) = ([""], rest) := by
  have hq : parseQuoted ('"' :: '\r' :: '\n' :: rest) = ([], '\r' :: '\n' :: rest) := by
    simp [parseQuoted, parseQuotedF]
  simp [parseRowF, parseField, hq]

theorem encodeFields_length (r : List String) :
    r.length ≤ (encodeFields r).length + 1 := by
  induction r with
  | nil => simp [encodeFields]
  | cons f r' ih =>
    cases r' with
    | nil => simp [encodeFields]
    | cons g r'' =>
      simp [encodeFields, List.length_append] at ih ⊢
      omega

theorem csvLinesChars_length (rows : List (List String)) :
    rows.length ≤ (csvLinesChars rows).length := by
  induction rows with
  | nil => simp [csvLinesChars]
  | cons r rs ih =>
    have h1 : 1 ≤ (encodeRowChars r).length := by
      by_cases h : r = [""]
      · simp [encodeRowChars, h]
      · simp [encodeRowChars, h, List.length_append]
    simp [csvLinesChars, List.length_append]
    omega

theorem encodeFields_head (r : List String) (h0 : r ≠ []) (h1 : r ≠ [""]) :
    ∃ c t, encodeFields r = c :: t ∧ ¬ c = '\r' ∧ ¬ c = '\n' := by
  cases r with
  | nil => exact absurd rfl h0
  | cons f r' =>
    cases r' with
    | nil =>
      by_cases hq : f.data.any specialChar
      · exact ⟨'"', escapeChars f.data ++ ['"'],
          by simp [encodeFields, encodeFieldChars, hq], by decide, by decide⟩
      · cases hd : f.data with
        | nil =>
          exfalso
          apply h1
          have hf : f = "" := String.ext (by rw [hd])
          rw [hf]
        | cons d ds =>
          rw [hd] at hq
          have hns : ¬ specialChar d = true := by
            intro hs
            exact hq (List.any_eq_true.mpr ⟨d, by simp, hs⟩)
          simp only [specialChar, Bool.or_eq_true, decide_eq_true_eq, not_or] at hns
          exact ⟨d, ds, by simp [encodeFields, encodeFieldChars, hq, hd],
            hns.1.2, hns.2⟩
    | cons g r'' =>
      by_cases hq : f.data.any specialChar
      · exact ⟨'"', escapeChars f.data ++ ['"'] ++ ',' :: encodeFields (g :: r''),
          by simp [encodeFields, encodeFieldChars, hq], by decide, by decide⟩
      · cases hd : f.data with
        | nil =>
          rw [hd] at hq
          exact ⟨',', encodeFields (g :: r''),
            by simp [encodeFields, encodeFieldChars, hq, hd], by decide, by decide⟩
        | cons d ds =>
          rw [hd] at hq
          have hns : ¬ specialChar d = true := by
            intro hs
            exact hq (List.any_eq_true.mpr ⟨d, by simp, hs⟩)
          simp only [specialChar, Bool.or_eq_true, decide_eq_true_eq, not_or] at hns
          exact ⟨d, ds ++ ',' :: encodeFields (g :: r''),
            by simp [encodeFields, encodeFieldChars, hq, hd],
            hns.1.2, hns.2⟩

theorem parseCSVF_encode (rows : List (List String)) :
    ∀ fuel : Nat, rows.length ≤ fuel →
      parseCSVF fuel (csvLinesChars rows) = rows := by
  induction rows with
  | nil => intro fuel _; cases fuel <;> simp [csvLinesChars, parseCSVF]
  | cons r rs ih =>
    intro fuel hfuel
    obtain ⟨k, rfl⟩ : ∃ k, fuel = k + 1 :=
      ⟨fuel - 1, by simp only [List.length_cons] at hfuel; omega⟩
    have ihr := ih k (by simp only [List.length_cons] at hfuel; omega)
    by_cases h0 : r = []
    · subst h0
      simp [csvLinesChars, encodeRowChars, encodeFields, parseCSVF, ihr]
    · by_cases h1 : r = [""]
      · subst h1
        have hl : csvLinesChars ([""] :: rs)
            = '"' :: '"' :: '\r' :: '\n' :: csvLinesChars rs := by
          simp [csvLinesChars, encodeRowChars]
        rw [hl]
        simp only [parseCSVF]
        rw [if_neg (by decide), if_neg (by decide)]
        simp only [List.length_cons, parseRowF_quotes]
        simp [ihr]
      · obtain ⟨c, t, hct, hcr, hcn⟩ := encodeFields_head r h0 h1
        have hl : csvLinesChars (r :: rs)
            = c :: (t ++ '\r' :: '\n' :: csvLinesChars rs) := by
          simp [csvLinesChars, encodeRowChars, h1, hct]
        have hback : c :: (t ++ '\r' :: '\n' :: csvLinesChars rs)
            = encodeFields r ++ '\r' :: '\n' :: csvLinesChars rs := by
          simp [hct]
        have hrow := parseRowF_encode r
          ((c :: (t ++ '\r' :: '\n' :: csvLinesChars rs)).length + 1)
          (csvLinesChars rs) h0 ?_
        · rw [hl]
          simp only [parseCSVF]
          rw [if_neg hcr, if_neg hcn]
          rw [hback] at hrow
          rw [hback]
          simp only [hrow]
          simp [ihr]
        · have h2 := encodeFields_length r
          have h3 : (encodeFields r).length
              ≤ (c :: (t ++ '\r' :: '\n' :: csvLinesChars rs)).length := by
            rw [hback]
            simp [List.length_append]
          omega

/-- The header plus all record rows survive a CSV write/read cycle intact. -/
theorem csv_roundtrip (urls : List Row) :
    parseCSV (export_csv_content urls)
      = ["url", "timestamp", "status_code", "mime_type"] :: urls := by
  have hlen := csvLinesChars_length (["url", "timestamp", "status_code", "mime_type"] :: urls)
  exact parseCSVF_encode (["url", "timestamp", "status_code", "mime_type"] :: urls)
    ((csvLinesChars (["url", "timestamp", "status_code", "mime_type"] :: urls)).length + 1)
    (by omega)

/-! ### TXT line lemmas -/

theorem takeWhile_append_all (p : Char → Bool) (u : List Char) :
    ∀ v : List Char, (∀ c ∈ u, p c = true) →
      (u ++ v).takeWhile p = u ++ v.takeWhile p ∧ (u ++ v).dropWhile p = v.dropWhile p := by
  induction u with
  | nil => intro v _; simp
  | cons c cs ih =>
    intro v h
    have hc := h c (by simp)
    have ihr := ih v fun x hx => h x (by simp [hx])
    simp [List.takeWhile_cons, List.dropWhile_cons, hc, ihr]

theorem splitLinesF_txt (urls : List Row) :
    ∀ fuel : Nat, (∀ item ∈ urls, '\n' ∉ (rowUrl item).data) → urls.length ≤ fuel →
      splitLinesF fuel (txtLinesChars urls) = urls.map rowUrl := by
  induction urls with
  | nil => intro fuel _ _; cases fuel <;> simp [txtLinesChars, splitLinesF]
  | cons item rest ih =>
    intro fuel h hfuel
    obtain ⟨k, rfl⟩ : ∃ k, fuel = k + 1 :=
      ⟨fuel - 1, by simp only [List.length_cons] at hfuel; omega⟩
    have hni := h item (by simp)
    have hu : ∀ c ∈ (rowUrl item).data, (!(c = '\n')) = true := by
      intro c hc
      simp only [Bool.not_eq_true', decide_eq_false_iff_not]
      intro hceq
      exact hni (hceq ▸ hc)
    have htw := takeWhile_append_all (fun x => !(x = '\n')) (rowUrl item).data
      ('\n' :: txtLinesChars rest) hu
    have ihr := ih k (fun i hi => h i (by simp [hi]))
      (by simp only [List.length_cons] at hfuel; omega)
    obtain ⟨d, ds, hds⟩ : ∃ d ds,
        (rowUrl item).data ++ '\n' :: txtLinesChars rest = d :: ds := by
      cases (rowUrl item).data <;> exact ⟨_, _, rfl⟩
    have hstep : txtLinesChars (item :: rest) = d :: ds := by
      simp [txtLinesChars, hds]
    rw [hstep]
    simp only [splitLinesF]
    rw [← hds, htw.1, htw.2]
    simp [ihr, strMk_data]

theorem txtLinesChars_length (urls : List Row) :
    urls.length ≤ (txtLinesChars urls).length := by
  induction urls with
  | nil => simp [txtLinesChars]
  | cons item rest ih =>
    simp [txtLinesChars, List.length_append]
    omega

/-- C2 counterexample: the TXT export writes only the url of each record, so
two record sequences differing only in their timestamps produce the same TXT
file while their (url, timestamp, status, mime) tuples differ — no re-parse
of a TXT export can recover the tuples. -/
theorem export_roundtrip_counterexample :
    export_txt_content [["http://example.com/a", "20200101000000", "200", "text/html"]]
      = export_txt_content [["http://example.com/a", "20210101000000", "200", "text/html"]] ∧
    [["http://example.com/a", "20200101000000", "200", "text/html"]].map recordTuple
      ≠ [["http://example.com/a", "20210101000000", "200", "text/html"]].map recordTuple :=
  ⟨rfl, by decide⟩

/-- C2 amended: exporting a fixed record sequence and re-parsing the file
recovers the (url, timestamp, status, mime) tuples in the same order for CSV
(the parse returns exactly the header row followed by the original rows) and
for JSON (the urls array preserves each tuple, null standing for absent
fields); the TXT export preserves only the url components, in order, provided
no url contains a newline. -/
theorem export_roundtrip (urls : List Row) :
    parseCSV (export_csv_content urls)
      = ["url", "timestamp", "status_code", "mime_type"] :: urls ∧
    ((parseCSV (export_csv_content urls)).drop 1).map recordTuple
      = urls.map recordTuple ∧
    (export_json_urls urls).map entryTuple = urls.map recordTuple ∧
    ((∀ item ∈ urls, '\n' ∉ (rowUrl item).data) →
      splitLines (export_txt_content urls) = urls.map rowUrl) := by
  have hcsv := csv_roundtrip urls
  refine ⟨hcsv, ?_, ?_, ?_⟩
  · rw [hcsv]
    simp
  · simp only [export_json_urls, List.map_map]
    rfl
  · intro h
    have hlen := txtLinesChars_length urls
    exact splitLinesF_txt urls ((txtLinesChars urls).length + 1) h (by omega)

/-- Witness for C2 at a concrete record sequence exercising quoting and a
short row. -/
theorem export_roundtrip_witness :
    parseCSV (export_csv_content [["http://a/x,y", "2020", "200", "text/html"], ["http://b"]])
      = [["url", "timestamp", "status_code", "mime_type"],
         ["http://a/x,y", "2020", "200", "text/html"], ["http://b"]] ∧
    (export_json_urls [["http://a/x,y", "2020", "200", "text/html"], ["http://b"]]).map entryTuple
      = [["http://a/x,y", "2020", "200", "text/html"], ["http://b"]].map recordTuple ∧
    splitLines (export_txt_content [["http://a/x,y", "2020", "200", "text/html"], ["http://b"]])
      = [["http://a/x,y", "2020", "200", "text/html"], ["http://b"]].map rowUrl :=
  ⟨(export_roundtrip [["http://a/x,y", "2020", "200", "text/html"], ["http://b"]]).1,
   (export_roundtrip [["http://a/x,y", "2020", "200", "text/html"], ["http://b"]]).2.2.1,
   (export_roundtrip [["http://a/x,y", "2020", "200", "text/html"], ["http://b"]]).2.2.2
     (by decide)⟩

/-- C10: a row with fewer than 3 entries aggregates under the placeholder
status string "unknown" and is counted under that key in `by_status`; with
fewer than 4 entries its mime is the placeholder "unknown", which matches no
mime keyword, so its category is decided by the URL-extension fallback alone;
the JSON export instead emits null for the same absent fields. -/
theorem short_row_unknown (item : Row) (url : String) (urls : List Row) :
    (item.length < 3 → rowStatus item = "unknown") ∧
    (item.length < 4 → rowMime item = "unknown") ∧
    categorize_mime "unknown" url = urlExtCategory url ∧
    ((calculate_stats urls).by_status).get "unknown"
      = urls.countP (fun i => decide (rowStatus i = "unknown")) ∧
    (item.length < 3 → (jsonEntry item).status_code = none) ∧
    (item.length < 4 → (jsonEntry item).mime_type = none) := by
  refine ⟨?_, ?_, rfl, ?_, ?_, ?_⟩
  · intro h
    exact List.getD_eq_default item "unknown" (by omega)
  · intro h
    exact List.getD_eq_default item "unknown" (by omega)
  · have h := foldl_statsStep_status_get urls "unknown" ([], [], [])
    simpa [calculate_stats, Counter.get] using h
  · intro h
    simp [jsonEntry]
    omega
  · intro h
    simp [jsonEntry]
    omega

/-- Witness for C10 at a one-entry row and a mixed record list. -/
theorem short_row_unknown_witness :
    rowStatus ["http://u"] = "unknown" ∧
    rowMime ["http://u"] = "unknown" ∧
    categorize_mime "unknown" "http://x/s.css" = urlExtCategory "http://x/s.css" ∧
    ((calculate_stats [["http://u"], ["http://v", "1", "200", "text/html"]]).by_status).get "unknown"
      = [["http://u"], ["http://v", "1", "200", "text/html"]].countP
          (fun i => decide (rowStatus i = "unknown")) ∧
    (jsonEntry ["http://u"]).status_code = none ∧
    (jsonEntry ["http://u"]).mime_type = none :=
  ⟨(short_row_unknown ["http://u"] "http://x/s.css"
      [["http://u"], ["http://v", "1", "200", "text/html"]]).1 (by decide),
   (short_row_unknown ["http://u"] "http://x/s.css"
      [["http://u"], ["http://v", "1", "200", "text/html"]]).2.1 (by decide),
   (short_row_unknown ["http://u"] "http://x/s.css"
      [["http://u"], ["http://v", "1", "200", "text/html"]]).2.2.1,
   (short_row_unknown ["http://u"] "http://x/s.css"
      [["http://u"], ["http://v", "1", "200", "text/html"]]).2.2.2.1,
   (short_row_unknown ["http://u"] "http://x/s.css"
      [["http://u"], ["http://v", "1", "200", "text/html"]]).2.2.2.2.1 (by decide),
   (short_row_unknown ["http://u"] "http://x/s.css"
      [["http://u"], ["http://v", "1", "200", "text/html"]]).2.2.2.2.2 (by decide)⟩

end Wayback
